/-
Verification of the semantic-chunking-for-rag repository's table decomposition,
multi-view chunk generation, section grouping, retrieval comparison and
collection-name handling, as shallow Lean embeddings of the Python source.
-/
import Mathlib

namespace SemanticRag

/-! ## Numeric coercion (model of Python float parsing / pandas to_numeric) -/

/-- Digits folded to a natural number, as in positional decimal notation. -/
def digitsToNat (ds : List Char) : Nat :=
  ds.foldl (fun n c => 10 * n + (c.toNat - 48)) 0

/-- Parse an unsigned decimal numeral, optionally with a fractional part.
Models the digit/point core of Python float parsing used by float() and
pandas to_numeric (exponents and special values are outside the fragment
exercised by this repository's data). -/
def parseUnsigned (s : List Char) : Option Rat :=
  let intPart := s.takeWhile Char.isDigit
  let rest := s.dropWhile Char.isDigit
  match rest with
  | [] => if intPart = [] then none else some (digitsToNat intPart)
  | '.' :: frac =>
      if frac.all Char.isDigit ∧ ¬(intPart = [] ∧ frac = []) then
        some ((digitsToNat intPart : Rat) + (digitsToNat frac : Rat) / ((10 : Rat) ^ frac.length))
      else none
  | _ => none

/-- Whitespace test used when stripping cell text, matching the characters
Python strips around numeric literals. -/
def pyIsSpace (c : Char) : Bool :=
  c = ' ' ∨ c = '\t' ∨ c = '\n' ∨ c = '\r'

/-- Strip leading and trailing whitespace from a character list. -/
def stripWs (cs : List Char) : List Char :=
  ((cs.dropWhile pyIsSpace).reverse.dropWhile pyIsSpace).reverse

/-- Model of numeric coercion of one cell: surrounding whitespace is stripped,
an optional sign is honoured; a non-numeric cell yields none (pandas NaN). -/
def pyToNumeric (s : String) : Option Rat :=
  match stripWs s.data with
  | '-' :: rest => (parseUnsigned rest).map (fun q => -q)
  | '+' :: rest => parseUnsigned rest
  | cs => parseUnsigned cs

/-! ## Per-column statistics (semantic.py, first process_table, lines 136-149) -/

/-- Aggregate statistics of one numeric column, as stored under
table_data["statistics"][column]. -/
structure ColStats where
  min : Rat
  max : Rat
  mean : Rat
  sum : Rat
deriving DecidableEq, Repr

/-- Statistics of one column of cells, per the loop at semantic.py lines
138-149: every cell goes through numeric coercion with errors="coerce"
(non-numeric cells become missing), the column is kept only when not all
cells are missing, and min/max/mean/sum are taken over the non-missing
coerced values (pandas skips missing values in these aggregates). -/
def computeColumnStats (cells : List String) : Option ColStats :=
  let vals := cells.filterMap pyToNumeric
  match vals with
  | [] => none
  | v :: vs =>
      some { min := vs.foldl Min.min v
           , max := vs.foldl Max.max v
           , mean := (v :: vs).foldl (· + ·) 0 / ((v :: vs).length : Rat)
           , sum := (v :: vs).foldl (· + ·) 0 }

/-- Modelled from the spec: the "lossy policy" it documents for aggregates,
in which a cell that fails numeric coercion contributes 0 to the column sum.
Stated only to be compared with the source's skip-missing-values sum. -/
def specZeroCoerceSum (cells : List String) : Rat :=
  (cells.map (fun c => (pyToNumeric c).getD 0)).foldl (· + ·) 0

/-! ## Row padding and DataFrame columns (semantic.py, first process_table, lines 116-131) -/

/-- Longest observed row length: Python max(len(row) for row in rows) if
rows else 0 (folding Nat.max with 0 agrees since lengths are naturals). -/
def maxCols (rows : List (List String)) : Nat :=
  (rows.map List.length).foldr Nat.max 0

/-- Row padding (lines 119-122): each row is extended on the right with
empty-string cells up to the longest observed row length. -/
def padRows (rows : List (List String)) : List (List String) :=
  rows.map (fun r => r ++ List.replicate (maxCols rows - r.length) "")

/-- DataFrame column labels (lines 126-131): the extracted headers when their
count equals the padded width, otherwise synthesized Column_i names. -/
def dfColumns (headers : List String) (rows : List (List String)) : List String :=
  if headers ≠ [] ∧ headers.length = maxCols rows then headers
  else (List.range (maxCols rows)).map (fun i => "Column_" ++ toString (i + 1))

/-! ## HTML table extraction (semantic.py, extract_table_from_html, lines 48-90) -/

/-- Abstraction of the BeautifulSoup view of one table element that
extract_table_from_html reads: the flattened th/td cell texts of its first
thead (if any), and the cell texts of every tr in document order
(including rows inside a thead, as find_all returns them). -/
structure HtmlTable where
  thead : Option (List String)
  trs : List (List String)
deriving DecidableEq, Repr

/-- One record of DataFrame.to_json(orient=records): column key to cell,
none standing for JSON null. -/
abbrev TRecord := List (String × Option String)

/-- Model of pd.DataFrame(rows, columns=headers if headers else None)
followed by the to_json(orient=records) round trip: ragged rows are padded
with null up to the widest row; with no headers the keys are the
stringified column indices; a header count differing from the data width
raises (none), which extract_table_from_html turns into its error dict. -/
def dfRecords (headers : List String) (rows : List (List String)) : Option (List TRecord) :=
  match rows with
  | [] => some []
  | _ =>
      let width := maxCols rows
      if ¬(headers = []) ∧ ¬(headers.length = width) then none
      else
        let keys := if ¬(headers = []) then headers else (List.range width).map toString
        some (rows.map (fun r => keys.zip (r.map some ++ List.replicate (width - r.length) none)))

/-- Rows kept at lines 67-70: every tr cell list that is non-empty and
differs from the extracted headers. -/
def extractedRows (t : HtmlTable) : List (List String) :=
  t.trs.filter (fun r => ¬(r = []) ∧ ¬(r = t.thead.getD []))

/-- Structured table dictionary as built by extract_table_from_html; a none
field models the absence of that key in the Python dict. -/
structure TableData where
  headers : List String
  rows : List (List String)
  records : Option (List TRecord)
  columns : Option (List (String × List String))
  statistics : Option (List (String × ColStats))
  err : Option String
deriving DecidableEq, Repr

/-- extract_table_from_html (lines 58-90): headers come from the first
thead when present (else stay []); every non-empty tr whose cells differ
from the extracted headers becomes a data row; records come from the
DataFrame round trip, and on a DataFrame error the dict keeps only
headers, rows and an error marker (no records key). -/
def extractTable (t : HtmlTable) : TableData :=
  match dfRecords (t.thead.getD []) (extractedRows t) with
  | some recs => ⟨t.thead.getD [], extractedRows t, some recs, none, none, none⟩
  | none => ⟨t.thead.getD [], extractedRows t, none, none, none, some "DataFrame construction failed"⟩

/-! ## Multi-view chunk generation (semantic.py, create_table_chunks, lines 302-498) -/

/-- The table_format tag of a generated chunk. -/
inductive TFormat
  | readable
  | json
  | column
  | statistics
  | description
  | rowGroup
deriving DecidableEq, Repr

/-- Column statistics stored on a numeric column chunk
(column_stats: min, max, avg, sum, count). -/
structure NumColStats where
  min : Rat
  max : Rat
  avg : Rat
  sum : Rat
  count : Nat
deriving DecidableEq, Repr

/-- Metadata of one chunk emitted by create_table_chunks; fields a given
chunk kind does not set stay none. -/
structure TChunk where
  format : TFormat
  purpose : String
  recordCount : Option Nat := none
  fields : Option (List String) := none
  columnName : Option String := none
  isNumeric : Option Bool := none
  columnStats : Option NumColStats := none
  uniqueValues : Option (List String) := none
  statistics : Option (List (String × ColStats)) := none
  rowRange : Option String := none
  rowRecords : Option (List TRecord) := none
deriving DecidableEq, Repr

/-- One step of first-occurrence deduplication: keep a new element at the
end, drop one already seen. -/
def dedupStep {α : Type} [DecidableEq α] (acc : List α) (a : α) : List α :=
  if a ∈ acc then acc else acc ++ [a]

/-- First-occurrence deduplication, as Python dict insertion order; it also
stands in for Python set iteration, whose order is arbitrary (there, only
membership and cardinality of the result are meaningful). -/
def dedupFirst {α : Type} [DecidableEq α] (l : List α) : List α :=
  l.foldl dedupStep []

/-- The coercion list at line 369: cells equal to the empty string are
dropped by the comprehension filter, whitespace-only cells become 0, and a
remaining cell float() cannot parse raises ValueError, sending the whole
column to the non-numeric branch (none). -/
def columnNumericValues (colValues : List String) : Option (List Rat) :=
  let kept := colValues.filter (fun v => ¬(v = ""))
  if kept.all (fun v => stripWs v.data = [] ∨ (pyToNumeric v).isSome) then
    some (kept.map (fun v => if stripWs v.data = [] then 0 else (pyToNumeric v).getD 0))
  else none

/-- Chunks for one (column name, cell list) pair (lines 366-416): a numeric
stats chunk when the coercion succeeds on a non-empty value list, otherwise
a text chunk listing deduplicated values when any cell is non-empty. -/
def columnChunk (colName : String) (colValues : List String) : List TChunk :=
  match columnNumericValues colValues with
  | some nums =>
      match nums with
      | [] => []
      | v :: vs =>
          [{ format := TFormat.column
           , purpose := "analysis"
           , columnName := some colName
           , isNumeric := some true
           , columnStats := some
               { min := vs.foldl Min.min v
               , max := vs.foldl Max.max v
               , avg := (v :: vs).foldl (· + ·) 0 / ((v :: vs).length : Rat)
               , sum := (v :: vs).foldl (· + ·) 0
               , count := (v :: vs).length } }]
  | none =>
      if ¬(colValues = []) ∧ colValues.any (fun v => ¬(v = "")) then
        [{ format := TFormat.column
         , purpose := "analysis"
         , columnName := some colName
         , isNumeric := some false
         , uniqueValues := some ((dedupFirst (colValues.filter (fun v => ¬(v = "")))).take 10) }]
      else []

/-- The row-group slicing loop (lines 466-467): Python
range(0, len(records), 5) with slices records[i:i+5]; each pair carries the
0-based start index of the slice. -/
def sliceBy5 (recs : List TRecord) (i : Nat) : List (Nat × List TRecord) :=
  match recs with
  | [] => []
  | r :: rest =>
      (i, (r :: rest).take 5) :: sliceBy5 ((r :: rest).drop 5) (i + 5)
termination_by recs.length
decreasing_by
  simp only [List.length_drop, List.length_cons]
  omega

/-- create_table_chunks (lines 302-498): the readable view is always
emitted; the JSON view and the per-column views require a non-empty records
key (the column block is nested inside the records branch and additionally
needs a columns key, which extract_table_from_html never writes); the
statistics summary requires a non-empty statistics key; the description's
key-presence test on headers and rows is always true for these dicts; row
groups appear once records has more than 10 entries. -/
def createTableChunks (td : TableData) : List TChunk :=
  let jsonPart : List TChunk :=
    match td.records with
    | some recs =>
        if ¬(recs = []) then
          { format := TFormat.json
          , purpose := "query"
          , recordCount := some recs.length
          , fields := some ((recs.headD []).map Prod.fst) } ::
          (match td.columns with
           | some cols =>
               if ¬(cols = []) then cols.flatMap (fun p => columnChunk p.1 p.2) else []
           | none => [])
        else []
    | none => []
  let statsPart : List TChunk :=
    match td.statistics with
    | some st =>
        if ¬(st = []) then
          [{ format := TFormat.statistics, purpose := "analysis", statistics := some st }]
        else []
    | none => []
  let rowPart : List TChunk :=
    match td.records with
    | some recs =>
        if ¬(recs = []) ∧ recs.length > 10 then
          (sliceBy5 recs 0).map (fun p =>
            { format := TFormat.rowGroup
            , purpose := "query"
            , rowRange := some (toString (p.1 + 1) ++ "-" ++ toString (p.1 + p.2.length))
            , rowRecords := some p.2 })
        else []
    | none => []
  [{ format := TFormat.readable, purpose := "display" }]
    ++ jsonPart ++ statsPart
    ++ [{ format := TFormat.description, purpose := "overview" }]
    ++ rowPart

/-- The concrete two-data-row table of the end-to-end property: no thead
element exists, so the header tr is just another tr. -/
def c1Table : HtmlTable :=
  ⟨none, [["Name", "Revenue"], ["A", "100"], ["B", "200"]]⟩

/-- The chunks the table pipeline emits for that table. -/
def c1Chunks : List TChunk :=
  createTableChunks (extractTable c1Table)

/-! ## Section grouping (semantic.py, process_elements, lines 587-627) -/

/-- One text-bearing element after parsing: its unstructured type name, its
text, and the page number its metadata carries (0 when unknown). -/
structure TextElem where
  etype : String
  text : String
  page : Nat
deriving DecidableEq, Repr

/-- A logical section: title, accumulated content, page of its first text. -/
structure DocSection where
  title : String
  content : String
  page : Nat
deriving DecidableEq, Repr

/-- One step of the grouping loop (lines 591-611): a Title flushes the
current section when it has content and starts a new one titled with and
seeded by the title text; any other element appends its text after a blank
line, or seeds the content and page when the section is still empty. -/
def sectionStep (st : DocSection × List DocSection) (e : TextElem) :
    DocSection × List DocSection :=
  if e.etype = "Title" then
    ( ⟨e.text, e.text, e.page⟩
    , if ¬(st.1.content = "") then st.2 ++ [st.1] else st.2 )
  else
    if ¬(st.1.content = "") then
      (⟨st.1.title, st.1.content ++ "\n\n" ++ e.text, st.1.page⟩, st.2)
    else
      (⟨st.1.title, e.text, e.page⟩, st.2)

/-- The grouping pass (lines 588-627) over the already sorted text
elements: fold the loop from an untitled empty section, flush the final
section when it has content, and fall back to a single synthetic Document
section only when no section was created although elements exist (which
requires every element text to be empty). -/
def groupSections (es : List TextElem) : List DocSection :=
  let st := es.foldl sectionStep (⟨"", "", 0⟩, [])
  let secs := if ¬(st.1.content = "") then st.2 ++ [st.1] else st.2
  if secs = [] ∧ ¬(es = []) then
    [⟨"Document", String.intercalate "\n\n" (es.map TextElem.text),
      (es.headD ⟨"", "", 0⟩).page⟩]
  else secs

/-- Double-newline join as the accumulation loop produces it: the first
text, then a blank-line separator before each later text. -/
def nnJoin (ts : List String) : String :=
  match ts with
  | [] => ""
  | t :: rest => rest.foldl (fun a b => a ++ "\n\n" ++ b) t

/-! ## Result comparison (query.py, _compare_results, lines 121-172) -/

/-- Metadata dictionary of one retrieved document, as key/value pairs. -/
abbrev PyMeta := List (String × String)

/-- Python dict get with default. -/
def metaGet (m : PyMeta) (k dflt : String) : String :=
  ((m.find? (fun p => p.1 = k)).map Prod.snd).getD dflt

/-- _compare_results as the list of observation lines it joins with
newlines: the count line always, then one fixed line per satisfied rule
(semantic side has a table type; semantic side has strictly more distinct
types; strictly more distinct metadata keys; only the semantic side has a
section key). -/
def compareObservations (recDocs semDocs : List PyMeta) : List String :=
  let recTypes := dedupFirst (recDocs.map (fun m => metaGet m "type" "unknown"))
  let semTypes := dedupFirst (semDocs.map (fun m => metaGet m "type" "unknown"))
  let tableLine :=
    if "table" ∈ semTypes then ["Semantic chunking found relevant table data."] else []
  let diverseLine :=
    if recTypes.length < semTypes.length then
      ["Semantic chunking provided more diverse content types."] else []
  let recKeys := dedupFirst (recDocs.foldl (fun acc m => acc ++ m.map Prod.fst) [])
  let semKeys := dedupFirst (semDocs.foldl (fun acc m => acc ++ m.map Prod.fst) [])
  let metaLine :=
    if recKeys.length < semKeys.length then ["Semantic chunking preserved more metadata."] else []
  let recStruct := recDocs.any (fun m => m.any (fun p => p.1 = "section"))
  let semStruct := semDocs.any (fun m => m.any (fun p => p.1 = "section"))
  let structLine :=
    if semStruct && !recStruct then
      ["Semantic chunking better preserved document structure."] else []
  ("Found " ++ toString recDocs.length ++ " recursive chunks and "
      ++ toString semDocs.length ++ " semantic chunks.")
    :: (tableLine ++ diverseLine ++ metaLine ++ structLine)

/-- The comparison report string: observation lines joined with newlines. -/
def compareResults (recDocs semDocs : List PyMeta) : String :=
  String.intercalate "\n" (compareObservations recDocs semDocs)

/-! ## Collection names (api/routes.py fix_collections; storage/qdrant.py create_collection) -/

/-- ASCII model of Python str.isalnum on one character; the theorems using
it restrict names to ASCII, where the two tests agree. -/
def pyIsAlnumChar (c : Char) : Bool :=
  c.isAlpha || c.isDigit

/-- A character valid in a collection name: alphanumeric or underscore. -/
def validNameChar (c : Char) : Bool :=
  pyIsAlnumChar c || c = '_'

/-- Python str.isalnum: non-empty and every character alphanumeric. -/
def pyStrIsAlnum (s : String) : Bool :=
  (!s.data.isEmpty) && s.data.all pyIsAlnumChar

/-- The gate of fix_collections (routes.py line 339): a collection is
renamed when its name is not alnum and not every character is alnum or
underscore. -/
def needsFix (s : String) : Bool :=
  (!pyStrIsAlnum s) && (!s.data.all validNameChar)

/-- The replacement built at routes.py line 341: each character outside
alnum/underscore becomes an underscore. -/
def sanitizeName (s : String) : String :=
  ⟨s.data.map (fun c => if validNameChar c then c else '_')⟩

/-- QdrantStorage.create_collection name handling (qdrant.py lines 44-46):
the configured collection prefix is prepended unless already present; no
other transformation is applied before the collection is created. -/
def namespacedName (pfx s : String) : String :=
  if pfx.data.isPrefixOf s.data then s else pfx ++ s

/-! ## Table-query retrieval prioritization (query.py, search_collection, lines 233-274) -/

/-- A retrieved document at query time: its text and the metadata keys
search_collection reads. -/
structure QDoc where
  text : String
  dtype : Option String
  tableId : Option String
  tablePurpose : Option String
  tableFormat : Option String
deriving DecidableEq, Repr

/-- The purpose priority map at lines 254-259: query 0, analysis 1,
overview 2, display 3; any other value, including the "" a missing key
defaults to, ranks 4. -/
def purposeRank (d : QDoc) : Nat :=
  let p := d.tablePurpose.getD ""
  if p = "query" then 0
  else if p = "analysis" then 1
  else if p = "overview" then 2
  else if p = "display" then 3
  else 4

/-- Python sorted() on the five-valued purpose rank: a stable sort,
realized as bucket concatenation in rank order. -/
def sortByRank (g : List QDoc) : List QDoc :=
  (g.filter (fun d => purposeRank d = 0))
    ++ (g.filter (fun d => purposeRank d = 1))
    ++ (g.filter (fun d => purposeRank d = 2))
    ++ (g.filter (fun d => purposeRank d = 3))
    ++ (g.filter (fun d => purposeRank d = 4))

/-- The key under which a table document is grouped (line 241). -/
def groupKey (d : QDoc) : String :=
  d.tableId.getD "unknown"

/-- Whether a retrieved document is a table chunk (line 240). -/
def isTableDoc (d : QDoc) : Bool :=
  d.dtype = some "table"

/-- The per-group selection (lines 252-268): the head of the stable purpose
sort, plus the first json-format document of the sorted group when that
document is not the selected one. -/
def pickGroup (g : List QDoc) : List QDoc :=
  match sortByRank g with
  | [] => []
  | best :: rest =>
      match (best :: rest).filter (fun d => d.tableFormat = some "json") with
      | [] => [best]
      | j :: _ => if j = best then [best] else [best, j]

/-- Group keys in first-appearance order among the retrieved table
documents, as Python dict insertion order (lines 239-244). -/
def groupIds (docs : List QDoc) : List String :=
  dedupFirst ((docs.filter (fun d => isTableDoc d)).map groupKey)

/-- The table documents retrieved for one group key, in retrieval order. -/
def groupDocs (docs : List QDoc) (gid : String) : List QDoc :=
  (docs.filter (fun d => isTableDoc d)).filter (fun d => groupKey d = gid)

/-- The non-table documents, in retrieval order (line 246). -/
def textDocsOf (docs : List QDoc) : List QDoc :=
  docs.filter (fun d => ¬(isTableDoc d = true))

/-- The prioritized list before truncation (lines 249-271): one selection
per table group in first-appearance order, then the text documents. -/
def prioritizedDocs (docs : List QDoc) : List QDoc :=
  (groupIds docs).flatMap (fun gid => pickGroup (groupDocs docs gid)) ++ textDocsOf docs

/-- search_collection's reranking (lines 233-274): for a table-shaped query
against the semantic collection the retrieved documents are grouped,
selected, reordered and truncated to k; otherwise they are returned as is. -/
def searchRerank (tableQuery semanticCollection : Bool) (docs : List QDoc) (k : Nat) :
    List QDoc :=
  if tableQuery && semanticCollection then (prioritizedDocs docs).take k else docs

/-- The selection that reranking emits for one group key. -/
def groupSelection (docs : List QDoc) (gid : String) : List QDoc :=
  (prioritizedDocs docs).filter (fun d => isTableDoc d && groupKey d = gid)

/-- The conjunction of reranking properties asserted for a table-shaped
query against the semantic collection: at most k results; all selected
table chunks before all text chunks; per group, the selection is its
highest-priority chunk, joined by a json-format chunk of the same group
exactly when the selected chunk is not itself the json variant and the
group has one. -/
def rerankSpec (docs : List QDoc) (k : Nat) : Prop :=
  (searchRerank true true docs k).length ≤ k ∧
  (∃ a b, searchRerank true true docs k = a ++ b ∧
    (∀ d ∈ a, isTableDoc d = true) ∧ (∀ d ∈ b, ¬(isTableDoc d = true))) ∧
  (∀ gid ∈ groupIds docs, ∃ best,
    best ∈ groupDocs docs gid ∧
    (∀ d ∈ groupDocs docs gid, purposeRank best ≤ purposeRank d) ∧
    ((¬(best.tableFormat = some "json") ∧
        (∃ j ∈ groupDocs docs gid, j.tableFormat = some "json")) →
      ∃ j ∈ groupDocs docs gid, j.tableFormat = some "json" ∧
        groupSelection docs gid = [best, j]) ∧
    (¬(¬(best.tableFormat = some "json") ∧
        (∃ j ∈ groupDocs docs gid, j.tableFormat = some "json")) →
      groupSelection docs gid = [best]))

/-- The sanitization properties asserted of collection-name handling: the
fix-collections gate flags a name exactly when some character is invalid;
the replacement it builds consists solely of valid characters; and
create_collection only prepends the missing prefix. -/
def sanitizeSpec (s pfx n : String) : Prop :=
  (needsFix s = true ↔ ∃ c ∈ s.data, validNameChar c = false) ∧
  (sanitizeName s).data.all validNameChar = true ∧
  (¬(pfx.data.isPrefixOf n.data = true) → namespacedName pfx n = pfx ++ n)

/-! ## Concrete inputs used by witnesses -/

/-- A display-purpose table chunk of table t1. -/
def wDocA : QDoc := ⟨"t1 readable", some "table", some "t1", some "display", some "readable"⟩

/-- A query-purpose json chunk of table t1. -/
def wDocB : QDoc := ⟨"t1 json", some "table", some "t1", some "query", some "json"⟩

/-- A plain text chunk. -/
def wDocC : QDoc := ⟨"plain", some "text", none, none, none⟩

/-- Eleven one-column records, to exercise row-group chunking. -/
def w11Records : List TRecord :=
  (List.range 11).map (fun i => [("v", some (toString i))])

/-- A table dictionary carrying those eleven records. -/
def w11Table : TableData :=
  ⟨["v"], [], some w11Records, none, none, none⟩

/-- The row-group properties asserted of a table whose records list recs
has more than ten entries: ceil(|recs|/5) row-group chunks, the j-th
covering records 5j..5j+4 and tagged with its 1-based row range, the last
one of size |recs| mod 5 (or 5 when divisible). -/
def rowGroupSpec (td : TableData) (recs : List TRecord) : Prop :=
  let rg := (createTableChunks td).filter (fun c => c.format = TFormat.rowGroup)
  rg.length = (recs.length + 4) / 5 ∧
  (∀ j, j < rg.length →
    rg.get? j = some
      { format := TFormat.rowGroup
      , purpose := "query"
      , rowRange := some (toString (5 * j + 1)
          ++ "-" ++ toString (5 * j + ((recs.drop (5 * j)).take 5).length))
      , rowRecords := some ((recs.drop (5 * j)).take 5) }) ∧
  ((recs.drop (5 * (rg.length - 1))).take 5).length
    = (if recs.length % 5 = 0 then 5 else recs.length % 5)

/-! ## Helper lemmas -/

lemma filterMap_sum_eq_getD_sum (cells : List String) (a : Rat) :
    (cells.filterMap pyToNumeric).foldl (· + ·) a
      = (cells.map (fun c => (pyToNumeric c).getD 0)).foldl (· + ·) a := by
  induction cells generalizing a with
  | nil => rfl
  | cons c cs ih =>
      cases h : pyToNumeric c with
      | none => simp [List.filterMap_cons, h, ih]
      | some q => simp [List.filterMap_cons, h, ih]

lemma length_le_maxCols {r : List String} {rows : List (List String)}
    (hr : r ∈ rows) : r.length ≤ maxCols rows := by
  induction rows with
  | nil => cases hr
  | cons a l ih =>
      rcases List.mem_cons.mp hr with rfl | hmem
      · simp only [maxCols, List.map_cons, List.foldr_cons]
        exact Nat.le_max_left _ _
      · have h1 := ih hmem
        have h2 : List.foldr Nat.max 0 (List.map List.length l)
            ≤ Nat.max a.length (List.foldr Nat.max 0 (List.map List.length l)) :=
          Nat.le_max_right _ _
        simp only [maxCols, List.map_cons, List.foldr_cons] at *
        omega

/-! ## C2 -/

/-- C2: a column whose cells are "10", "abc", "20" is classified numeric
(at least one cell coerces), its statistics are min 10, max 20, mean 15,
sum 30 — in particular the aggregate sum is 30 — and, in general, the
source's skip-missing-values sum coincides with the spec's
coerce-to-zero sum, so "abc" contributing 0 describes the aggregate sum
faithfully. -/
theorem c2_numeric_column_policy :
    (computeColumnStats ["10", "abc", "20"]).isSome = true ∧
    computeColumnStats ["10", "abc", "20"]
      = some { min := 10, max := 20, mean := 15, sum := 30 } ∧
    (∀ cells : List String,
      specZeroCoerceSum cells = ((computeColumnStats cells).map ColStats.sum).getD 0) := by
  refine ⟨?_, ?_, ?_⟩
  · simp +decide [computeColumnStats, pyToNumeric, parseUnsigned, stripWs, pyIsSpace, digitsToNat]
  · simp +decide [computeColumnStats, pyToNumeric, parseUnsigned, stripWs, pyIsSpace, digitsToNat]
    norm_num
  · intro cells
    have h := filterMap_sum_eq_getD_sum cells 0
    unfold specZeroCoerceSum computeColumnStats
    cases hf : cells.filterMap pyToNumeric with
    | nil =>
        rw [hf] at h
        simp [← h]
    | cons v vs =>
        rw [hf] at h
        simp [← h]

/-! ## C3 -/

/-- C3 counterexample: with header cells A, B, C and the single data row
containing just "1", the padding code pads to the longest observed row
length 1, not to max(3, 1) = 3, so the padded row length differs from the
header count. -/
theorem c3_padding_counterexample :
    padRows [["1"]] = [["1"]] ∧
    maxCols [["1"]] = 1 ∧
    Nat.max (["A", "B", "C"] : List String).length (maxCols [["1"]]) = 3 ∧
    ¬(∀ r ∈ padRows [["1"]], r.length = (["A", "B", "C"] : List String).length) := by
  decide

/-- C3 amended: every padded row has length maxCols rows — the longest
observed row length, with the header count playing no part — and that
length equals the number of effective DataFrame column labels (the
original headers exactly when their count matches, else the synthesized
Column_i names). -/
theorem c3_padding_amended (headers : List String) (rows : List (List String)) :
    ∀ r ∈ padRows rows, r.length = maxCols rows ∧ r.length = (dfColumns headers rows).length := by
  intro r hr
  rcases List.mem_map.mp hr with ⟨r0, hr0, rfl⟩
  have hle : r0.length ≤ maxCols rows := length_le_maxCols hr0
  have hlen : (r0 ++ List.replicate (maxCols rows - r0.length) "").length = maxCols rows := by
    simp only [List.length_append, List.length_replicate]
    omega
  refine ⟨hlen, ?_⟩
  rw [hlen]
  unfold dfColumns
  split
  · next h => exact h.2.symm
  · simp

/-- C3 amended, witnessed at a concrete ragged table: both rows of
[["1"], ["2","3"]] are padded to width 2 under headers A, B, C. -/
theorem c3_padding_amended_witness :
    (["1", ""] : List String).length = maxCols [["1"], ["2", "3"]] ∧
    (["1", ""] : List String).length = (dfColumns ["A", "B", "C"] [["1"], ["2", "3"]]).length :=
  c3_padding_amended ["A", "B", "C"] [["1"], ["2", "3"]] ["1", ""] (by decide)

/-! ## C1 -/

/-- C1 counterexample: on the claimed two-data-row HTML table the pipeline
of extract_table_from_html and create_table_chunks emits 3 chunks, not 6 —
no thead exists, so headers stay empty and the header row becomes a third
record; the columns and statistics keys are never written, so no column
views and no statistics chunk appear. -/
theorem c1_pipeline_counterexample :
    c1Chunks.length = 3 ∧
    ¬(c1Chunks.length = 6) ∧
    c1Chunks.map TChunk.format = [TFormat.readable, TFormat.json, TFormat.description] ∧
    (c1Chunks.filter (fun c => c.format = TFormat.column)).length = 0 ∧
    (c1Chunks.filter (fun c => c.format = TFormat.statistics)).length = 0 ∧
    (c1Chunks.filter (fun c => c.format = TFormat.json)).map TChunk.recordCount = [some 3] := by
  decide

/-- C1 amended: the pipeline emits exactly 3 chunks for that table — one
readable view, one json view carrying 3 records keyed by the stringified
column indices 0 and 1, and one description chunk; no column view, no
statistics chunk and no row-group chunk. -/
theorem c1_pipeline_amended :
    c1Chunks =
      [ { format := TFormat.readable, purpose := "display" }
      , { format := TFormat.json, purpose := "query"
        , recordCount := some 3, fields := some ["0", "1"] }
      , { format := TFormat.description, purpose := "overview" } ] ∧
    (extractTable c1Table).headers = [] ∧
    (extractTable c1Table).records = some
      [ [("0", some "Name"), ("1", some "Revenue")]
      , [("0", some "A"), ("1", some "100")]
      , [("0", some "B"), ("1", some "200")] ] := by
  decide

/-! ## C10 -/

/-- C10: extract_table_from_html keeps exactly the non-empty tr cell lists
that differ from the extracted headers, so any tr whose cell texts equal
the header texts is silently dropped from the structured table's rows. -/
theorem c10_header_equal_row_dropped (t : HtmlTable) (r : List String)
    (hr : r = t.thead.getD []) :
    (extractTable t).rows
      = t.trs.filter (fun x => ¬(x = []) ∧ ¬(x = t.thead.getD [])) ∧
    r ∉ (extractTable t).rows := by
  have hrows : (extractTable t).rows = extractedRows t := by
    unfold extractTable
    cases hdf : dfRecords (t.thead.getD []) (extractedRows t) <;> simp [hdf]
  refine ⟨by rw [hrows]; rfl, ?_⟩
  rw [hrows]
  intro hmem
  have := (List.mem_filter.mp hmem).2
  rw [hr] at this
  simp at this

/-- C10 witnessed: in a table whose thead gives headers H1, H2 and whose
body repeats that very cell list as a data row, the repeated row is absent
from the extracted rows while the other row survives. -/
theorem c10_header_equal_row_dropped_witness :
    (extractTable ⟨some ["H1", "H2"], [["H1", "H2"], ["a", "b"]]⟩).rows
      = ([["H1", "H2"], ["a", "b"]] : List (List String)).filter
          (fun x => ¬(x = []) ∧ ¬(x = (some ["H1", "H2"] : Option (List String)).getD [])) ∧
    ["H1", "H2"] ∉ (extractTable ⟨some ["H1", "H2"], [["H1", "H2"], ["a", "b"]]⟩).rows :=
  c10_header_equal_row_dropped ⟨some ["H1", "H2"], [["H1", "H2"], ["a", "b"]]⟩ ["H1", "H2"] (by decide)

/-! ## C4 -/

lemma append_sep_ne_empty (a b : String) : ¬(a ++ "\n\n" ++ b = "") := by
  intro h
  have hlen := congrArg String.length h
  rw [String.length_append, String.length_append] at hlen
  have h2 : ("\n\n" : String).length = 2 := rfl
  have h0 : ("" : String).length = 0 := rfl
  rw [h2, h0] at hlen
  omega

lemma foldl_sep_ne_empty (ts : List String) :
    ∀ a : String, ¬(a = "") → ¬(ts.foldl (fun x y => x ++ "\n\n" ++ y) a = "") := by
  induction ts with
  | nil => intro a ha; simpa using ha
  | cons t rest ih =>
      intro a _
      exact ih (a ++ "\n\n" ++ t) (append_sep_ne_empty a t)

lemma fold_sectionStep_no_title :
    ∀ (es : List TextElem) (cur : DocSection) (secs : List DocSection),
      ¬(cur.content = "") → (∀ e ∈ es, ¬(e.etype = "Title")) →
      es.foldl sectionStep (cur, secs)
        = (⟨cur.title, es.foldl (fun a e => a ++ "\n\n" ++ e.text) cur.content, cur.page⟩, secs) := by
  intro es
  induction es with
  | nil => intro cur secs _ _; rfl
  | cons e rest ih =>
      intro cur secs hc h
      have he := h e (List.mem_cons_self _ _)
      have hstep : sectionStep (cur, secs) e
          = (⟨cur.title, cur.content ++ "\n\n" ++ e.text, cur.page⟩, secs) := by
        simp [sectionStep, he, hc]
      rw [List.foldl_cons, hstep,
        ih ⟨cur.title, cur.content ++ "\n\n" ++ e.text, cur.page⟩ secs
          (append_sep_ne_empty _ _) (fun x hx => h x (List.mem_cons_of_mem _ hx))]
      simp [List.foldl_cons]

/-- C4 counterexample: a single NarrativeText element with text "hello"
and no Title collapses into one section, but its title is the empty
string, not the synthetic "Document". -/
theorem c4_grouping_counterexample :
    groupSections [⟨"NarrativeText", "hello", 0⟩] = [⟨"", "hello", 0⟩] ∧
    ¬((groupSections [⟨"NarrativeText", "hello", 0⟩]).map DocSection.title = ["Document"]) := by
  decide

/-- C4 amended: a non-empty Title-free element sequence whose texts are all
non-empty collapses into exactly one section titled with the empty string,
whose content joins the element texts with blank lines and whose page is
the first element's; the synthetic "Document" section arises only when
every element text is empty. -/
theorem c4_grouping_amended (es : List TextElem) (hne : ¬(es = []))
    (h : ∀ e ∈ es, ¬(e.etype = "Title") ∧ ¬(e.text = "")) :
    groupSections es
      = [⟨"", nnJoin (es.map TextElem.text), (es.headD ⟨"", "", 0⟩).page⟩] := by
  cases es with
  | nil => exact absurd rfl hne
  | cons e rest =>
      have he := h e (List.mem_cons_self _ _)
      have hstep : sectionStep (⟨"", "", 0⟩, []) e = (⟨"", e.text, e.page⟩, []) := by
        simp [sectionStep, he.1]
      have hfold := fold_sectionStep_no_title rest ⟨"", e.text, e.page⟩ [] he.2
        (fun x hx => (h x (List.mem_cons_of_mem _ hx)).1)
      have hF : ¬(rest.foldl (fun a x => a ++ "\n\n" ++ x.text) e.text = "") := by
        have := foldl_sep_ne_empty (rest.map TextElem.text) e.text he.2
        rw [List.foldl_map] at this
        exact this
      have hjoin : nnJoin ((e :: rest).map TextElem.text)
          = rest.foldl (fun a x => a ++ "\n\n" ++ x.text) e.text := by
        simp [nnJoin, List.foldl_map]
      unfold groupSections
      simp only [List.foldl_cons, hstep, hfold]
      simp [hF, hjoin]
      simp [nnJoin, List.foldl_map]

/-- C4 amended, witnessed on two Title-free elements with non-empty texts
on pages 1 and 2. -/
theorem c4_grouping_amended_witness :
    groupSections [⟨"NarrativeText", "a", 1⟩, ⟨"ListItem", "b", 2⟩]
      = [⟨"", nnJoin (([⟨"NarrativeText", "a", 1⟩, ⟨"ListItem", "b", 2⟩] :
            List TextElem).map TextElem.text),
          (([⟨"NarrativeText", "a", 1⟩, ⟨"ListItem", "b", 2⟩] :
            List TextElem).headD ⟨"", "", 0⟩).page⟩] :=
  c4_grouping_amended [⟨"NarrativeText", "a", 1⟩, ⟨"ListItem", "b", 2⟩]
    (by decide) (by decide)

/-! ## C5 -/

lemma sliceBy5_closed :
    ∀ (n : Nat) (recs : List TRecord) (i : Nat), recs.length = n →
      sliceBy5 recs i
        = (List.range ((recs.length + 4) / 5)).map
            (fun j => (i + 5 * j, (recs.drop (5 * j)).take 5)) := by
  intro n
  induction n using Nat.strong_induction_on with
  | _ n ih =>
      intro recs i hlen
      cases recs with
      | nil => simp [sliceBy5]
      | cons r rest =>
          have hdl : ((r :: rest).drop 5).length = (r :: rest).length - 5 := by
            simp [List.length_drop]
          have hlt : ((r :: rest).drop 5).length < n := by
            rw [hdl, ← hlen]
            simp
            omega
          have hrec := ih _ hlt ((r :: rest).drop 5) (i + 5) rfl
          have hn : ((r :: rest).length + 4) / 5 = (((r :: rest).drop 5).length + 4) / 5 + 1 := by
            rw [hdl]
            simp only [List.length_cons]
            omega
          rw [sliceBy5, hrec, hn, List.range_succ_eq_map]
          simp only [List.map_cons, List.map_map, Nat.mul_zero, Nat.add_zero, List.drop_zero]
          congr 1
          refine List.map_congr_left ?_
          intro a ha
          simp only [Function.comp, Prod.mk.injEq]
          constructor
          · omega
          · rw [List.drop_drop]
            have h5 : 5 + 5 * a = 5 * a.succ := by omega
            rw [h5]

lemma columnChunk_format {n : String} {vs : List String} :
    ∀ c ∈ columnChunk n vs, c.format = TFormat.column := by
  intro c hc
  unfold columnChunk at hc
  split at hc
  · next nums _ =>
      cases nums with
      | nil => cases hc
      | cons v vv =>
          rcases List.mem_singleton.mp hc with rfl
          rfl
  · split at hc
    · rcases List.mem_singleton.mp hc with rfl
      rfl
    · cases hc

lemma filter_rowGroup_chunks (td : TableData) (recs : List TRecord)
    (hrec : td.records = some recs) (hlen : recs.length > 10) :
    (createTableChunks td).filter (fun c => c.format = TFormat.rowGroup)
      = (sliceBy5 recs 0).map (fun p =>
          { format := TFormat.rowGroup
          , purpose := "query"
          , rowRange := some (toString (p.1 + 1) ++ "-" ++ toString (p.1 + p.2.length))
          , rowRecords := some p.2 }) := by
  have hne : ¬(recs = []) := by
    intro h
    rw [h] at hlen
    simp at hlen
  have hcols : ∀ copt : Option (List (String × List String)),
      (match copt with
        | some cols =>
            if cols = [] then [] else cols.flatMap (fun p => columnChunk p.1 p.2)
        | none => ([] : List TChunk)).filter
          (fun (c : TChunk) => c.format = TFormat.rowGroup) = [] := by
    intro copt
    rw [List.filter_eq_nil_iff]
    intro c hc
    cases copt with
    | none => cases hc
    | some cols =>
        simp only at hc
        by_cases h0 : cols = []
        · rw [if_pos h0] at hc
          cases hc
        · rw [if_neg h0] at hc
          rcases List.mem_flatMap.mp hc with ⟨p, _, hcp⟩
          have hfmt := columnChunk_format c hcp
          simp [hfmt]
  have hstats : ∀ sopt : Option (List (String × ColStats)),
      (match sopt with
        | some st =>
            if st = [] then []
            else
              [({ format := TFormat.statistics, purpose := "analysis"
                , statistics := some st } : TChunk)]
        | none => ([] : List TChunk)).filter
          (fun (c : TChunk) => c.format = TFormat.rowGroup) = [] := by
    intro sopt
    rw [List.filter_eq_nil_iff]
    intro c hc
    cases sopt with
    | none => cases hc
    | some st =>
        simp only at hc
        by_cases h0 : st = []
        · rw [if_pos h0] at hc
          cases hc
        · rw [if_neg h0] at hc
          rcases List.mem_singleton.mp hc with rfl
          simp
  have hrg : ((sliceBy5 recs 0).map (fun p =>
      ({ format := TFormat.rowGroup
       , purpose := "query"
       , rowRange := some (toString (p.1 + 1) ++ "-" ++ toString (p.1 + p.2.length))
       , rowRecords := some p.2 } : TChunk))).filter
        (fun (c : TChunk) => c.format = TFormat.rowGroup)
      = (sliceBy5 recs 0).map (fun p =>
          { format := TFormat.rowGroup
          , purpose := "query"
          , rowRange := some (toString (p.1 + 1) ++ "-" ++ toString (p.1 + p.2.length))
          , rowRecords := some p.2 }) := by
    rw [List.filter_eq_self]
    intro c hc
    rcases List.mem_map.mp hc with ⟨p, _, rfl⟩
    simp
  simp +decide [createTableChunks, hrec, hne, hlen, List.filter_append, List.filter_cons,
    hcols td.columns, hstats td.statistics, hrg]

/-- C5: for a table dictionary whose records list has more than ten
entries, create_table_chunks emits exactly ceil(R/5) row-group chunks, the
j-th carrying records 5j..5j+4 with its 1-based row range tag, and the
last one holding R mod 5 records (5 when R is divisible by 5). -/
theorem c5_row_group_chunks (td : TableData) (recs : List TRecord)
    (hrec : td.records = some recs) (hlen : recs.length > 10) :
    rowGroupSpec td recs := by
  simp only [rowGroupSpec]
  rw [filter_rowGroup_chunks td recs hrec hlen,
    sliceBy5_closed recs.length recs 0 rfl]
  refine ⟨by simp, ?_, ?_⟩
  · intro j hj
    have hj' : j < (recs.length + 4) / 5 := by
      simpa using hj
    rw [List.map_map, List.get?_map, List.get?_range hj']
    simp
  · simp only [List.length_map, List.length_range, List.length_take, List.length_drop]
    split <;> omega

/-- C5 witnessed on a table of eleven records: three row groups of sizes
5, 5, 1. -/
theorem c5_row_group_chunks_witness : rowGroupSpec w11Table w11Records :=
  c5_row_group_chunks w11Table w11Records rfl (by decide)

/-! ## C8 -/

/-- C8: for recursive results [{type: text}] and semantic results
[{type: table}, {type: text}], the comparison contains the observation
that semantic chunking found relevant table data, and — because the
semantic side's distinct type set is strictly larger — the type-diversity
observation favoring the semantic side. -/
theorem c8_comparator_observations :
    "Semantic chunking found relevant table data."
        ∈ compareObservations [[("type", "text")]] [[("type", "table")], [("type", "text")]] ∧
    "Semantic chunking provided more diverse content types."
        ∈ compareObservations [[("type", "text")]] [[("type", "table")], [("type", "text")]] := by
  decide

/-! ## C9 -/

/-- C9 counterexample: QdrantStorage.create_collection creates the
collection under the merely prefixed name, with no sanitization — the
name my-name keeps its hyphen, so a name containing a character outside
[A-Za-z0-9_] is not sanitized before that creation. -/
theorem c9_create_unsanitized_counterexample :
    namespacedName "semantic_chunking_" "my-name" = "semantic_chunking_my-name" ∧
    (namespacedName "semantic_chunking_" "my-name").data.all validNameChar = false := by
  decide

/-- C9 amended: sanitization lives only in the fix-collections endpoint,
which flags an (ASCII) existing collection name exactly when it contains a
character outside [A-Za-z0-9_] and rebuilds it with every invalid
character replaced by an underscore; create_collection itself only
namespaces the name with the configured prefix. -/
theorem c9_sanitize_amended (s pfx n : String)
    (hascii : ∀ c ∈ s.data, c.toNat < 128) :
    sanitizeSpec s pfx n := by
  refine ⟨?_, ?_, ?_⟩
  · constructor
    · intro h
      unfold needsFix at h
      rw [Bool.and_eq_true] at h
      have hb : s.data.all validNameChar = false := by
        cases hx : s.data.all validNameChar with
        | false => rfl
        | true =>
            exfalso
            rw [hx] at h
            simp at h
      rcases List.all_eq_false.mp hb with ⟨c, hc, hval⟩
      exact ⟨c, hc, by simpa using hval⟩
    · rintro ⟨c, hc, hval⟩
      have hsplit : pyIsAlnumChar c = false := by
        have := hval
        unfold validNameChar at this
        rcases Bool.or_eq_false_iff.mp this with ⟨h1, _⟩
        exact h1
      have halnum : s.data.all pyIsAlnumChar = false :=
        List.all_eq_false.mpr ⟨c, hc, by simp [hsplit]⟩
      have hvalid : s.data.all validNameChar = false :=
        List.all_eq_false.mpr ⟨c, hc, by simp [hval]⟩
      unfold needsFix pyStrIsAlnum
      simp [halnum, hvalid]
  · rw [List.all_eq_true]
    intro c hc
    have hc' : c ∈ (s.data.map (fun c => if validNameChar c then c else '_')) := hc
    rcases List.mem_map.mp hc' with ⟨c0, _, rfl⟩
    by_cases h : validNameChar c0 = true
    · simpa [h]
    · have h' : validNameChar c0 = false := by
        simpa using h
      simp [h']
      decide
  · intro h
    simp [namespacedName, h]

/-- C9 amended, witnessed at the ASCII name containing a space and an
exclamation mark. -/
theorem c9_sanitize_amended_witness : sanitizeSpec "my name!" "px_" "abc" :=
  c9_sanitize_amended "my name!" "px_" "abc" (by decide)

/-! ## C6 -/

lemma mem_foldl_dedupStep {α : Type} [DecidableEq α] :
    ∀ (l acc : List α) (x : α), (x ∈ l.foldl dedupStep acc) ↔ x ∈ acc ∨ x ∈ l := by
  intro l
  induction l with
  | nil => intro acc x; simp
  | cons a t ih =>
      intro acc x
      rw [List.foldl_cons, ih]
      unfold dedupStep
      by_cases h : a ∈ acc
      · rw [if_pos h]
        constructor
        · rintro (h1 | h1)
          · exact Or.inl h1
          · exact Or.inr (List.mem_cons_of_mem _ h1)
        · rintro (h1 | h1)
          · exact Or.inl h1
          · rcases List.mem_cons.mp h1 with rfl | h2
            · exact Or.inl h
            · exact Or.inr h2
      · rw [if_neg h]
        constructor
        · rintro (h1 | h1)
          · rcases List.mem_append.mp h1 with h2 | h2
            · exact Or.inl h2
            · rcases List.mem_singleton.mp h2 with rfl
              exact Or.inr (List.mem_cons_self _ _)
          · exact Or.inr (List.mem_cons_of_mem _ h1)
        · rintro (h1 | h1)
          · exact Or.inl (List.mem_append.mpr (Or.inl h1))
          · rcases List.mem_cons.mp h1 with rfl | h2
            · exact Or.inl (List.mem_append.mpr (Or.inr (List.mem_singleton.mpr rfl)))
            · exact Or.inr h2

lemma nodup_foldl_dedupStep {α : Type} [DecidableEq α] :
    ∀ (l acc : List α), acc.Nodup → (l.foldl dedupStep acc).Nodup := by
  intro l
  induction l with
  | nil => intro acc h; simpa
  | cons a t ih =>
      intro acc h
      rw [List.foldl_cons]
      unfold dedupStep
      by_cases hm : a ∈ acc
      · rw [if_pos hm]
        exact ih acc h
      · rw [if_neg hm]
        refine ih _ (List.nodup_append.mpr ⟨h, List.nodup_singleton a, ?_⟩)
        intro x hx hx2
        rcases List.mem_singleton.mp hx2 with rfl
        exact hm hx

lemma dedupFirst_nodup {α : Type} [DecidableEq α] (l : List α) : (dedupFirst l).Nodup :=
  nodup_foldl_dedupStep l [] List.nodup_nil

lemma mem_dedupFirst {α : Type} [DecidableEq α] {x : α} {l : List α} :
    x ∈ dedupFirst l ↔ x ∈ l := by
  unfold dedupFirst
  rw [mem_foldl_dedupStep]
  simp

lemma purposeRank_cases (d : QDoc) :
    purposeRank d = 0 ∨ purposeRank d = 1 ∨ purposeRank d = 2 ∨
      purposeRank d = 3 ∨ purposeRank d = 4 := by
  unfold purposeRank
  by_cases h0 : (d.tablePurpose.getD "") = "query"
  · simp [h0]
  · by_cases h1 : (d.tablePurpose.getD "") = "analysis"
    · simp [h0, h1]
    · by_cases h2 : (d.tablePurpose.getD "") = "overview"
      · simp [h0, h1, h2]
      · by_cases h3 : (d.tablePurpose.getD "") = "display"
        · simp [h0, h1, h2, h3]
        · simp [h0, h1, h2, h3]

lemma mem_sortByRank {d : QDoc} {g : List QDoc} : d ∈ sortByRank g ↔ d ∈ g := by
  unfold sortByRank
  simp only [List.mem_append, List.mem_filter]
  constructor
  · rintro ((((⟨h, _⟩ | ⟨h, _⟩) | ⟨h, _⟩) | ⟨h, _⟩) | ⟨h, _⟩) <;> exact h
  · intro h
    rcases purposeRank_cases d with hr | hr | hr | hr | hr <;> simp [h, hr]

lemma filter_rank_nil_imp {g : List QDoc} {k : Nat}
    (h : g.filter (fun d => purposeRank d = k) = []) :
    ∀ d ∈ g, ¬(purposeRank d = k) := by
  intro d hd hk
  have hmem : d ∈ g.filter (fun d => purposeRank d = k) :=
    List.mem_filter.mpr ⟨hd, by simp [hk]⟩
  rw [h] at hmem
  cases hmem

lemma sortByRank_head_min {g : List QDoc} {best : QDoc} {rest : List QDoc}
    (h : sortByRank g = best :: rest) :
    best ∈ g ∧ ∀ d ∈ g, purposeRank best ≤ purposeRank d := by
  have hbest : best ∈ g := by
    have : best ∈ sortByRank g := by
      rw [h]
      exact List.mem_cons_self _ _
    exact mem_sortByRank.mp this
  refine ⟨hbest, ?_⟩
  unfold sortByRank at h
  cases h0 : g.filter (fun d => purposeRank d = 0) with
  | cons x xs =>
      rw [h0] at h
      have hx : best = x := by
        simpa using congrArg List.head? h.symm
      have hrank : purposeRank best = 0 := by
        rw [hx]
        have := (List.mem_filter.mp (h0 ▸ List.mem_cons_self x xs)).2
        simpa using this
      intro d _
      omega
  | nil =>
      rw [h0] at h
      cases h1 : g.filter (fun d => purposeRank d = 1) with
      | cons x xs =>
          rw [h1] at h
          have hx : best = x := by
            simpa using congrArg List.head? h.symm
          have hrank : purposeRank best = 1 := by
            rw [hx]
            have := (List.mem_filter.mp (h1 ▸ List.mem_cons_self x xs)).2
            simpa using this
          intro d hd
          rcases purposeRank_cases d with hr | hr | hr | hr | hr
          · exact absurd hr (filter_rank_nil_imp h0 d hd)
          all_goals omega
      | nil =>
          rw [h1] at h
          cases h2 : g.filter (fun d => purposeRank d = 2) with
          | cons x xs =>
              rw [h2] at h
              have hx : best = x := by
                simpa using congrArg List.head? h.symm
              have hrank : purposeRank best = 2 := by
                rw [hx]
                have := (List.mem_filter.mp (h2 ▸ List.mem_cons_self x xs)).2
                simpa using this
              intro d hd
              rcases purposeRank_cases d with hr | hr | hr | hr | hr
              · exact absurd hr (filter_rank_nil_imp h0 d hd)
              · exact absurd hr (filter_rank_nil_imp h1 d hd)
              all_goals omega
          | nil =>
              rw [h2] at h
              cases h3 : g.filter (fun d => purposeRank d = 3) with
              | cons x xs =>
                  rw [h3] at h
                  have hx : best = x := by
                    simpa using congrArg List.head? h.symm
                  have hrank : purposeRank best = 3 := by
                    rw [hx]
                    have := (List.mem_filter.mp (h3 ▸ List.mem_cons_self x xs)).2
                    simpa using this
                  intro d hd
                  rcases purposeRank_cases d with hr | hr | hr | hr | hr
                  · exact absurd hr (filter_rank_nil_imp h0 d hd)
                  · exact absurd hr (filter_rank_nil_imp h1 d hd)
                  · exact absurd hr (filter_rank_nil_imp h2 d hd)
                  all_goals omega
              | nil =>
                  rw [h3] at h
                  cases h4 : g.filter (fun d => purposeRank d = 4) with
                  | cons x xs =>
                      rw [h4] at h
                      have hx : best = x := by
                        simpa using congrArg List.head? h.symm
                      have hrank : purposeRank best = 4 := by
                        rw [hx]
                        have := (List.mem_filter.mp (h4 ▸ List.mem_cons_self x xs)).2
                        simpa using this
                      intro d hd
                      rcases purposeRank_cases d with hr | hr | hr | hr | hr
                      · exact absurd hr (filter_rank_nil_imp h0 d hd)
                      · exact absurd hr (filter_rank_nil_imp h1 d hd)
                      · exact absurd hr (filter_rank_nil_imp h2 d hd)
                      · exact absurd hr (filter_rank_nil_imp h3 d hd)
                      all_goals omega
                  | nil =>
                      rw [h4] at h
                      cases h

lemma pickGroup_subset {g : List QDoc} : ∀ d ∈ pickGroup g, d ∈ g := by
  intro d hd
  cases hs : sortByRank g with
  | nil => simp only [pickGroup, hs] at hd; cases hd
  | cons best rest =>
      simp only [pickGroup, hs] at hd
      have hbest : best ∈ g := mem_sortByRank.mp (hs ▸ List.mem_cons_self best rest)
      cases hj : (best :: rest).filter (fun d => d.tableFormat = some "json") with
      | nil =>
          simp only [hj] at hd
          rcases List.mem_singleton.mp hd with rfl
          exact hbest
      | cons j js =>
          simp only [hj] at hd
          have hjg : j ∈ g := by
            have hj1 : j ∈ (best :: rest).filter (fun d => d.tableFormat = some "json") := by
              rw [hj]
              exact List.mem_cons_self _ _
            have := (List.mem_filter.mp hj1).1
            exact mem_sortByRank.mp (hs ▸ this)
          by_cases hb : j = best
          · rw [if_pos hb] at hd
            rcases List.mem_singleton.mp hd with rfl
            exact hbest
          · rw [if_neg hb] at hd
            rcases List.mem_cons.mp hd with rfl | hd2
            · exact hbest
            · rcases List.mem_singleton.mp hd2 with rfl
              exact hjg

lemma pickGroup_spec (g : List QDoc) (hg : ¬(g = [])) :
    ∃ best, best ∈ g ∧ (∀ d ∈ g, purposeRank best ≤ purposeRank d) ∧
      ((¬(best.tableFormat = some "json") ∧ (∃ j ∈ g, j.tableFormat = some "json")) →
        ∃ j ∈ g, j.tableFormat = some "json" ∧ pickGroup g = [best, j]) ∧
      (¬(¬(best.tableFormat = some "json") ∧ (∃ j ∈ g, j.tableFormat = some "json")) →
        pickGroup g = [best]) := by
  cases hs : sortByRank g with
  | nil =>
      exfalso
      rcases List.exists_mem_of_ne_nil g hg with ⟨x, hx⟩
      have : x ∈ sortByRank g := mem_sortByRank.mpr hx
      rw [hs] at this
      cases this
  | cons best rest =>
      rcases sortByRank_head_min hs with ⟨hbest, hmin⟩
      refine ⟨best, hbest, hmin, ?_, ?_⟩
      · rintro ⟨hbr, j0, hj0g, hj0f⟩
        cases hj : (best :: rest).filter (fun d => d.tableFormat = some "json") with
        | nil =>
            exfalso
            have hj0s : j0 ∈ best :: rest := hs ▸ mem_sortByRank.mpr hj0g
            have : j0 ∈ (best :: rest).filter (fun d => d.tableFormat = some "json") :=
              List.mem_filter.mpr ⟨hj0s, by simp [hj0f]⟩
            rw [hj] at this
            cases this
        | cons j js =>
            have hjmem : j ∈ (best :: rest).filter (fun d => d.tableFormat = some "json") := by
              rw [hj]
              exact List.mem_cons_self _ _
            have hjfmt : j.tableFormat = some "json" := by
              have := (List.mem_filter.mp hjmem).2
              simpa using this
            have hjg : j ∈ g := mem_sortByRank.mp (hs ▸ (List.mem_filter.mp hjmem).1)
            have hjb : ¬(j = best) := by
              intro he
              rw [he] at hjfmt
              exact hbr hjfmt
            refine ⟨j, hjg, hjfmt, ?_⟩
            simp only [pickGroup, hs, hj]
            rw [if_neg hjb]
      · intro hnot
        cases hj : (best :: rest).filter (fun d => d.tableFormat = some "json") with
        | nil =>
            simp only [pickGroup, hs, hj]
        | cons j js =>
            have hjmem : j ∈ (best :: rest).filter (fun d => d.tableFormat = some "json") := by
              rw [hj]
              exact List.mem_cons_self _ _
            have hjfmt : j.tableFormat = some "json" := by
              have := (List.mem_filter.mp hjmem).2
              simpa using this
            have hjg : j ∈ g := mem_sortByRank.mp (hs ▸ (List.mem_filter.mp hjmem).1)
            have hbj : best.tableFormat = some "json" := by
              by_contra hbr
              exact hnot ⟨hbr, j, hjg, hjfmt⟩
            have hjb : j = best := by
              have hbmem : best ∈ (best :: rest).filter (fun d => d.tableFormat = some "json") :=
                List.mem_filter.mpr ⟨List.mem_cons_self _ _, by simp [hbj]⟩
              rw [hj] at hbmem
              rcases List.mem_cons.mp hbmem with he | hbtail
              · exact he.symm
              · have : (best :: rest).filter (fun d => d.tableFormat = some "json")
                    = best :: List.filter (fun d => d.tableFormat = some "json") rest := by
                  rw [List.filter_cons_of_pos]
                  simp [hbj]
                rw [this] at hj
                have hje := (List.cons.injEq _ _ _ _).mp hj.symm
                exact hje.1
            simp only [pickGroup, hs, hj]
            rw [if_pos hjb]

lemma groupDocs_props {docs : List QDoc} {gid : String} :
    ∀ d ∈ groupDocs docs gid, isTableDoc d = true ∧ groupKey d = gid := by
  intro d hd
  unfold groupDocs at hd
  have h2 := List.mem_filter.mp hd
  have h1 := List.mem_filter.mp h2.1
  exact ⟨by simpa using h1.2, by simpa using h2.2⟩

lemma textDocs_not_table {docs : List QDoc} :
    ∀ d ∈ textDocsOf docs, ¬(isTableDoc d = true) := by
  intro d hd
  have := (List.mem_filter.mp hd).2
  simpa using this

lemma filter_flatMap_other {docs : List QDoc} {gid : String} :
    ∀ ids : List String, ¬(gid ∈ ids) →
      ((ids.flatMap (fun g2 => pickGroup (groupDocs docs g2))).filter
        (fun d => isTableDoc d && groupKey d = gid)) = [] := by
  intro ids
  induction ids with
  | nil => intro _; rfl
  | cons i is ih =>
      intro hni
      rw [List.flatMap_cons, List.filter_append]
      have h1 : (pickGroup (groupDocs docs i)).filter
          (fun d => isTableDoc d && groupKey d = gid) = [] := by
        rw [List.filter_eq_nil_iff]
        intro d hd
        have hk := (groupDocs_props d (pickGroup_subset d hd)).2
        have hng : ¬(groupKey d = gid) := by
          rw [hk]
          intro he
          exact hni (he ▸ List.mem_cons_self i is)
        simp [hng]
      rw [h1, ih (fun h => hni (List.mem_cons_of_mem _ h)), List.nil_append]

lemma filter_flatMap_self {docs : List QDoc} {gid : String} :
    ∀ ids : List String, ids.Nodup → gid ∈ ids →
      ((ids.flatMap (fun g2 => pickGroup (groupDocs docs g2))).filter
        (fun d => isTableDoc d && groupKey d = gid)) = pickGroup (groupDocs docs gid) := by
  intro ids
  induction ids with
  | nil => intro _ h; cases h
  | cons i is ih =>
      intro hnd hmem
      rw [List.flatMap_cons, List.filter_append]
      rcases List.mem_cons.mp hmem with rfl | htail
      · have h1 : (pickGroup (groupDocs docs gid)).filter
            (fun d => isTableDoc d && groupKey d = gid) = pickGroup (groupDocs docs gid) := by
          rw [List.filter_eq_self]
          intro d hd
          rcases groupDocs_props d (pickGroup_subset d hd) with ⟨ht, hk⟩
          simp [ht, hk]
        have hni : ¬(gid ∈ is) := (List.nodup_cons.mp hnd).1
        rw [h1, filter_flatMap_other is hni, List.append_nil]
      · have hig : ¬(i = gid) := by
          intro he
          have h2 := (List.nodup_cons.mp hnd).1
          rw [he] at h2
          exact h2 htail
        have h1 : (pickGroup (groupDocs docs i)).filter
            (fun d => isTableDoc d && groupKey d = gid) = [] := by
          rw [List.filter_eq_nil_iff]
          intro d hd
          have hk := (groupDocs_props d (pickGroup_subset d hd)).2
          have hng : ¬(groupKey d = gid) := by
            rw [hk]
            exact hig
          simp [hng]
        rw [h1, ih (List.nodup_cons.mp hnd).2 htail, List.nil_append]

lemma groupSelection_eq_pick {docs : List QDoc} {gid : String} (h : gid ∈ groupIds docs) :
    groupSelection docs gid = pickGroup (groupDocs docs gid) := by
  unfold groupSelection prioritizedDocs
  rw [List.filter_append]
  have h2 : (textDocsOf docs).filter (fun d => isTableDoc d && groupKey d = gid) = [] := by
    rw [List.filter_eq_nil_iff]
    intro d hd
    have := textDocs_not_table d hd
    simp [this]
  rw [h2, filter_flatMap_self (groupIds docs) (dedupFirst_nodup _) h, List.append_nil]

lemma groupDocs_ne_nil {docs : List QDoc} {gid : String} (h : gid ∈ groupIds docs) :
    ¬(groupDocs docs gid = []) := by
  unfold groupIds at h
  rcases List.mem_map.mp (mem_dedupFirst.mp h) with ⟨d, hd, hk⟩
  intro hnil
  have hmem : d ∈ groupDocs docs gid := by
    unfold groupDocs
    exact List.mem_filter.mpr ⟨hd, by simp [hk]⟩
  rw [hnil] at hmem
  cases hmem

/-- C6: for a table-shaped query against the semantic collection, the
reranked retrieval has at most k results, every selected table chunk
precedes every plain-text chunk, and each table_id group contributes
exactly its highest-priority chunk (query over analysis over overview
over display), joined by a json-format chunk of the same group exactly
when the selected chunk is not itself the json variant and the group
contains one. -/
theorem c6_table_query_prioritization (docs : List QDoc) (k : Nat) :
    rerankSpec docs k := by
  refine ⟨?_, ?_, ?_⟩
  · simp only [searchRerank, Bool.and_self, if_true]
    rw [List.length_take]
    exact Nat.min_le_left _ _
  · refine ⟨((groupIds docs).flatMap (fun gid => pickGroup (groupDocs docs gid))).take k,
      (textDocsOf docs).take
        (k - ((groupIds docs).flatMap (fun gid => pickGroup (groupDocs docs gid))).length),
      ?_, ?_, ?_⟩
    · simp only [searchRerank, Bool.and_self, if_true]
      unfold prioritizedDocs
      exact List.take_append_eq_append_take
    · intro d hd
      have hmem := List.take_subset _ _ hd
      rcases List.mem_flatMap.mp hmem with ⟨gid, _, hdg⟩
      exact (groupDocs_props d (pickGroup_subset d hdg)).1
    · intro d hd
      exact textDocs_not_table d (List.take_subset _ _ hd)
  · intro gid hgid
    rcases pickGroup_spec (groupDocs docs gid) (groupDocs_ne_nil hgid) with ⟨best, h1, h2, h3, h4⟩
    refine ⟨best, h1, h2, ?_, ?_⟩
    · intro hc
      rcases h3 hc with ⟨j, hj1, hj2, hj3⟩
      exact ⟨j, hj1, hj2, by rw [groupSelection_eq_pick hgid, hj3]⟩
    · intro hc
      rw [groupSelection_eq_pick hgid, h4 hc]

/-- C6 witnessed at a retrieval of two table chunks of one table (display
readable and query json) and one text chunk, truncated to two results. -/
theorem c6_table_query_prioritization_witness : rerankSpec [wDocA, wDocB, wDocC] 2 :=
  c6_table_query_prioritization [wDocA, wDocB, wDocC] 2

end SemanticRag
